import Mathlib

/-!
Verification of the logistic-model numerical-methods repository.

The repository contains two copies of the numeric core:
* inline functions in the `ModeloLogisticoMultiplo` component
  (`modeloLogistico`, `solucaoExata`, `euler`, `eulerAprimorado`,
  `rungeKutta4`) which store the accumulated time unrounded, and
* standalone utility modules (`metodoEuler`, `metodoEulerAprimorado`,
  `metodoRungeKutta4`) which store `parseFloat(t.toFixed(6))`, i.e. the
  accumulated time rounded to six decimal digits, for every point after
  the first.

Floating-point doubles are modelled as real numbers; `parseFloat(t.toFixed(6))`
is modelled as rounding to the nearest multiple of 10^(-6).
-/

noncomputable section

/-- Embedding of `modeloLogistico(t, y, r, K) = r * y * (1 - y / K)`.
The `t` argument is accepted but unused, as in the source. -/
def modeloLogistico (_t y r K : ℝ) : ℝ := r * y * (1 - y / K)

/-- Embedding of `solucaoExata(t, r, K, y0) = (K * y0) / (y0 + (K - y0) * Math.exp(-r * t))`. -/
def solucaoExata (t r K y0 : ℝ) : ℝ :=
  (K * y0) / (y0 + (K - y0) * Real.exp (-r * t))

/-- Embedding of the loop bound `n = Math.floor(tf / h)` used by all three
integrators: a `for (let i = 0; i < n; i++)` loop runs `max n 0` times, hence
the `Int.toNat`.  This models the loop count faithfully for every `h ≠ 0`
(and for `h = 0` with `tf ≤ 0`, where the loop also never runs); at `h = 0`
with `tf > 0` the source computes `Math.floor(tf / 0) = Infinity` and the
loop never terminates, a behavior outside this real-number embedding, so
theorems about that regime must assume `h ≠ 0`. -/
def nSteps (tf h : ℝ) : ℕ := (⌊tf / h⌋).toNat

/-- Model of `parseFloat(x.toFixed(6))`: round to the nearest multiple of
`10 ^ (-6)` (ties toward the larger value, as `toFixed` rounds half away from
zero and all times in this program are nonnegative). -/
def round6 (x : ℝ) : ℝ := ((round (x * 1000000) : ℤ) : ℝ) / 1000000

/-- One trajectory point `{ t, y }`. -/
structure Point where
  t : ℝ
  y : ℝ

/-- The Euler update performed by one iteration of the source loop
(`metodoEuler` and the inline `euler`):
`dydt = f(t, y); y = y + h * dydt`.  It is also the update named in the
specification, `y_{i+1} = y_i + h * f(t_i, y_i)`. -/
def eulerStep (r K h t y : ℝ) : ℝ := y + h * modeloLogistico t y r K

/-- The Heun update performed by one iteration of the source loop
(`eulerAprimorado`, both copies):
`k1 = f(t, y); k2 = f(t + h, y + h * k1); y = y + (h / 2) * (k1 + k2)`. -/
def heunStep (r K h t y : ℝ) : ℝ :=
  let k1 := modeloLogistico t y r K
  let k2 := modeloLogistico (t + h) (y + h * k1) r K
  y + (h / 2) * (k1 + k2)

/-- The classical fourth-order update performed by one iteration of the source
loop (`rungeKutta4`, both copies):
`k1 = f(t, y); k2 = f(t + h/2, y + (h/2) k1); k3 = f(t + h/2, y + (h/2) k2);
k4 = f(t + h, y + h k3); y = y + (h/6)(k1 + 2 k2 + 2 k3 + k4)`. -/
def rk4Step (r K h t y : ℝ) : ℝ :=
  let k1 := modeloLogistico t y r K
  let k2 := modeloLogistico (t + h / 2) (y + (h / 2) * k1) r K
  let k3 := modeloLogistico (t + h / 2) (y + (h / 2) * k2) r K
  let k4 := modeloLogistico (t + h) (y + h * k3) r K
  y + (h / 6) * (k1 + 2 * k2 + 2 * k3 + k4)

/-- Reference recurrence: the y value after `i` steps of a one-step method
whose update is `step t y`, evaluated on the exact grid `t_i = i * h`.
This is the recurrence written in the specification, used to compare with
the imperative loops of the source. -/
def specY (step : ℝ → ℝ → ℝ) (y0 h : ℝ) : ℕ → ℝ
  | 0 => y0
  | i + 1 => step ((i : ℝ) * h) (specY step y0 h i)

namespace Inline

/-- Loop of the inline `euler` in `ModeloLogisticoMultiplo`: each iteration
computes `dydt = modeloLogistico(t, y, r, K)`, sets `y = y + h * dydt`,
`t = t + h`, and pushes `{ t, y }` (time stored unrounded). -/
def eulerAux (r K h : ℝ) : ℕ → ℝ → ℝ → List Point
  | 0, _, _ => []
  | n + 1, t, y =>
    let dydt := modeloLogistico t y r K
    let y2 := y + h * dydt
    let t2 := t + h
    ⟨t2, y2⟩ :: eulerAux r K h n t2 y2

/-- Embedding of the inline `euler(r, K, y0, tf, h)`: pushes `{ t: 0, y: y0 }`
and then runs `Math.floor(tf / h)` loop iterations. -/
def euler (r K y0 tf h : ℝ) : List Point :=
  ⟨0, y0⟩ :: eulerAux r K h (nSteps tf h) 0 y0

/-- Loop of the inline `eulerAprimorado`: each iteration computes
`k1 = f(t, y)`, `k2 = f(t + h, y + h * k1)`, sets `y = y + (h/2)(k1 + k2)`,
`t = t + h`, and pushes `{ t, y }` (time stored unrounded). -/
def eulerAprimoradoAux (r K h : ℝ) : ℕ → ℝ → ℝ → List Point
  | 0, _, _ => []
  | n + 1, t, y =>
    let k1 := modeloLogistico t y r K
    let k2 := modeloLogistico (t + h) (y + h * k1) r K
    let y2 := y + (h / 2) * (k1 + k2)
    let t2 := t + h
    ⟨t2, y2⟩ :: eulerAprimoradoAux r K h n t2 y2

/-- Embedding of the inline `eulerAprimorado(r, K, y0, tf, h)`. -/
def eulerAprimorado (r K y0 tf h : ℝ) : List Point :=
  ⟨0, y0⟩ :: eulerAprimoradoAux r K h (nSteps tf h) 0 y0

/-- Loop of the inline `rungeKutta4`: each iteration computes `k1 .. k4`,
sets `y = y + (h/6)(k1 + 2 k2 + 2 k3 + k4)`, `t = t + h`, and pushes
`{ t, y }` (time stored unrounded). -/
def rungeKutta4Aux (r K h : ℝ) : ℕ → ℝ → ℝ → List Point
  | 0, _, _ => []
  | n + 1, t, y =>
    let k1 := modeloLogistico t y r K
    let k2 := modeloLogistico (t + h / 2) (y + (h / 2) * k1) r K
    let k3 := modeloLogistico (t + h / 2) (y + (h / 2) * k2) r K
    let k4 := modeloLogistico (t + h) (y + h * k3) r K
    let y2 := y + (h / 6) * (k1 + 2 * k2 + 2 * k3 + k4)
    let t2 := t + h
    ⟨t2, y2⟩ :: rungeKutta4Aux r K h n t2 y2

/-- Embedding of the inline `rungeKutta4(r, K, y0, tf, h)`. -/
def rungeKutta4 (r K y0 tf h : ℝ) : List Point :=
  ⟨0, y0⟩ :: rungeKutta4Aux r K h (nSteps tf h) 0 y0

end Inline

namespace Utils

/-- Loop of the module `euler` (`metodoEuler`): identical to the inline loop
except that it pushes `{ t: parseFloat(t.toFixed(6)), y }`. -/
def eulerAux (r K h : ℝ) : ℕ → ℝ → ℝ → List Point
  | 0, _, _ => []
  | n + 1, t, y =>
    let dydt := modeloLogistico t y r K
    let y2 := y + h * dydt
    let t2 := t + h
    ⟨round6 t2, y2⟩ :: eulerAux r K h n t2 y2

/-- Embedding of the module `euler(r, K, y0, tf, h)` from `metodoEuler`. -/
def euler (r K y0 tf h : ℝ) : List Point :=
  ⟨0, y0⟩ :: eulerAux r K h (nSteps tf h) 0 y0

/-- Loop of the module `eulerAprimorado` (`metodoEulerAprimorado`): identical
to the inline loop except for the rounded stored time. -/
def eulerAprimoradoAux (r K h : ℝ) : ℕ → ℝ → ℝ → List Point
  | 0, _, _ => []
  | n + 1, t, y =>
    let k1 := modeloLogistico t y r K
    let k2 := modeloLogistico (t + h) (y + h * k1) r K
    let y2 := y + (h / 2) * (k1 + k2)
    let t2 := t + h
    ⟨round6 t2, y2⟩ :: eulerAprimoradoAux r K h n t2 y2

/-- Embedding of the module `eulerAprimorado(r, K, y0, tf, h)`. -/
def eulerAprimorado (r K y0 tf h : ℝ) : List Point :=
  ⟨0, y0⟩ :: eulerAprimoradoAux r K h (nSteps tf h) 0 y0

/-- Loop of the module `rungeKutta4` (`metodoRungeKutta4`): identical to the
inline loop except for the rounded stored time. -/
def rungeKutta4Aux (r K h : ℝ) : ℕ → ℝ → ℝ → List Point
  | 0, _, _ => []
  | n + 1, t, y =>
    let k1 := modeloLogistico t y r K
    let k2 := modeloLogistico (t + h / 2) (y + (h / 2) * k1) r K
    let k3 := modeloLogistico (t + h / 2) (y + (h / 2) * k2) r K
    let k4 := modeloLogistico (t + h) (y + h * k3) r K
    let y2 := y + (h / 6) * (k1 + 2 * k2 + 2 * k3 + k4)
    let t2 := t + h
    ⟨round6 t2, y2⟩ :: rungeKutta4Aux r K h n t2 y2

/-- Embedding of the module `rungeKutta4(r, K, y0, tf, h)`. -/
def rungeKutta4 (r K y0 tf h : ℝ) : List Point :=
  ⟨0, y0⟩ :: rungeKutta4Aux r K h (nSteps tf h) 0 y0

end Utils

/-- Any of the six integrator loops, abstracted by its per-step update `step`
and the transformation `store` applied to the time before storage (`id` for
the inline versions, `round6` for the module versions), produces from the grid
point `(i * h, specY i)` the list of the next `m` grid points. -/
theorem loopAux_eq_map (A : ℕ → ℝ → ℝ → List Point) (step : ℝ → ℝ → ℝ)
    (store : ℝ → ℝ) (y0 h : ℝ)
    (hz : ∀ t y, A 0 t y = [])
    (hs : ∀ n t y, A (n + 1) t y = ⟨store (t + h), step t y⟩ :: A n (t + h) (step t y)) :
    ∀ (m i : ℕ), A m ((i : ℝ) * h) (specY step y0 h i)
      = (List.range m).map
          (fun j => ⟨store (((i + j + 1 : ℕ) : ℝ) * h), specY step y0 h (i + j + 1)⟩) := by
  intro m
  induction m with
  | zero => intro i; simp [hz]
  | succ m ih =>
    intro i
    rw [hs]
    have ht : (i : ℝ) * h + h = ((i + 1 : ℕ) : ℝ) * h := by push_cast; ring
    have hy : step ((i : ℝ) * h) (specY step y0 h i) = specY step y0 h (i + 1) := rfl
    rw [ht, hy, ih (i + 1), List.range_succ_eq_map, List.map_cons, List.map_map]
    refine congrArg₂ List.cons ?_ ?_
    · simp
    · refine congrArg (fun f => List.map f (List.range m)) ?_
      funext j
      have hidx : i + 1 + j + 1 = i + (j + 1) + 1 := by omega
      simp [Function.comp, hidx]

/-- The full integrator output (initial point followed by the loop output),
in the same abstraction, is the map of the grid over `List.range (m + 1)`,
provided `store 0 = 0` (true for both `id` and `round6`). -/
theorem integrator_eq_map (A : ℕ → ℝ → ℝ → List Point) (step : ℝ → ℝ → ℝ)
    (store : ℝ → ℝ) (y0 h : ℝ)
    (hz : ∀ t y, A 0 t y = [])
    (hs : ∀ n t y, A (n + 1) t y = ⟨store (t + h), step t y⟩ :: A n (t + h) (step t y))
    (hst : store 0 = 0) (m : ℕ) :
    (⟨0, y0⟩ : Point) :: A m 0 y0
      = (List.range (m + 1)).map
          (fun i => ⟨store ((i : ℝ) * h), specY step y0 h i⟩) := by
  have h0 := loopAux_eq_map A step store y0 h hz hs m 0
  simp only [Nat.cast_zero, zero_mul] at h0
  rw [show A m 0 y0 = A m 0 (specY step y0 h 0) from rfl, h0,
    List.range_succ_eq_map, List.map_cons, List.map_map]
  refine congrArg₂ List.cons ?_ ?_
  · simp [hst, specY]
  · refine congrArg (fun f => List.map f (List.range m)) ?_
    funext j
    simp [Function.comp]

/-- Normal form of the inline Euler integrator: the list of grid points
`(i * h, y_i)` where `y_i` follows the Euler recurrence. -/
theorem inline_euler_eq (r K y0 tf h : ℝ) :
    Inline.euler r K y0 tf h
      = (List.range (nSteps tf h + 1)).map
          (fun i => ⟨(i : ℝ) * h, specY (eulerStep r K h) y0 h i⟩) :=
  integrator_eq_map (Inline.eulerAux r K h) (eulerStep r K h) id y0 h
    (fun _ _ => rfl) (fun _ _ _ => rfl) rfl (nSteps tf h)

/-- Normal form of the inline improved-Euler integrator. -/
theorem inline_eulerAprimorado_eq (r K y0 tf h : ℝ) :
    Inline.eulerAprimorado r K y0 tf h
      = (List.range (nSteps tf h + 1)).map
          (fun i => ⟨(i : ℝ) * h, specY (heunStep r K h) y0 h i⟩) :=
  integrator_eq_map (Inline.eulerAprimoradoAux r K h) (heunStep r K h) id y0 h
    (fun _ _ => rfl) (fun _ _ _ => rfl) rfl (nSteps tf h)

/-- Normal form of the inline RK4 integrator. -/
theorem inline_rungeKutta4_eq (r K y0 tf h : ℝ) :
    Inline.rungeKutta4 r K y0 tf h
      = (List.range (nSteps tf h + 1)).map
          (fun i => ⟨(i : ℝ) * h, specY (rk4Step r K h) y0 h i⟩) :=
  integrator_eq_map (Inline.rungeKutta4Aux r K h) (rk4Step r K h) id y0 h
    (fun _ _ => rfl) (fun _ _ _ => rfl) rfl (nSteps tf h)

/-- The stored time `parseFloat((0).toFixed(6))` is `0`. -/
theorem round6_zero : round6 0 = 0 := by simp [round6]

/-- Normal form of the module Euler integrator: same y values, stored times
rounded to six decimals. -/
theorem utils_euler_eq (r K y0 tf h : ℝ) :
    Utils.euler r K y0 tf h
      = (List.range (nSteps tf h + 1)).map
          (fun i => ⟨round6 ((i : ℝ) * h), specY (eulerStep r K h) y0 h i⟩) :=
  integrator_eq_map (Utils.eulerAux r K h) (eulerStep r K h) round6 y0 h
    (fun _ _ => rfl) (fun _ _ _ => rfl) round6_zero (nSteps tf h)

/-- Normal form of the module improved-Euler integrator. -/
theorem utils_eulerAprimorado_eq (r K y0 tf h : ℝ) :
    Utils.eulerAprimorado r K y0 tf h
      = (List.range (nSteps tf h + 1)).map
          (fun i => ⟨round6 ((i : ℝ) * h), specY (heunStep r K h) y0 h i⟩) :=
  integrator_eq_map (Utils.eulerAprimoradoAux r K h) (heunStep r K h) round6 y0 h
    (fun _ _ => rfl) (fun _ _ _ => rfl) round6_zero (nSteps tf h)

/-- Normal form of the module RK4 integrator. -/
theorem utils_rungeKutta4_eq (r K y0 tf h : ℝ) :
    Utils.rungeKutta4 r K y0 tf h
      = (List.range (nSteps tf h + 1)).map
          (fun i => ⟨round6 ((i : ℝ) * h), specY (rk4Step r K h) y0 h i⟩) :=
  integrator_eq_map (Utils.rungeKutta4Aux r K h) (rk4Step r K h) round6 y0 h
    (fun _ _ => rfl) (fun _ _ _ => rfl) round6_zero (nSteps tf h)

/-- Indexing a mapped range. -/
theorem getElem?_range_map {α : Type} (f : ℕ → α) {n i : ℕ} (hi : i < n) :
    ((List.range n).map f)[i]? = some (f i) := by
  simp [List.getElem?_map, List.getElem?_range hi]

/-- One entry of the `condicoes` state array: `{ y0, ativo }`. -/
structure Condicao where
  y0 : ℝ
  ativo : Bool

/-- One entry of `todasSolucoes`: the four parallel y sequences computed for
one active initial condition. -/
structure Solucao where
  y0 : ℝ
  exata : List ℝ
  euler : List ℝ
  eulerApr : List ℝ
  rk4 : List ℝ

namespace Multiplo

/-- Time grid of `ModeloLogisticoMultiplo`:
`tempos = Array.from({length: nPontos}, (_, i) => i * h)` with
`nPontos = Math.floor(tf / h) + 1`. -/
def tempos (tf h : ℝ) : List ℝ :=
  (List.range (nSteps tf h + 1)).map (fun i : ℕ => (i : ℝ) * h)

end Multiplo

namespace Corrigido

/-- Time grid of `ModeloLogisticoCorrigido`:
`tempos = Array.from({length: nPontos}, (_, i) => parseFloat((i * h).toFixed(6)))`. -/
def tempos (tf h : ℝ) : List ℝ :=
  (List.range (nSteps tf h + 1)).map (fun i : ℕ => round6 ((i : ℝ) * h))

/-- Embedding of `condicoes.filter(c => c.ativo)`. -/
def condicoesAtivas (condicoes : List Condicao) : List Condicao :=
  condicoes.filter (fun c => c.ativo)

/-- Embedding of the `todasSolucoes` computation of `ModeloLogisticoCorrigido`:
for each active initial condition, the analytic values over the grid and the
y projections of the three module integrators (the component imports the
module versions). -/
def todasSolucoes (r K tf h : ℝ) (condicoes : List Condicao) : List Solucao :=
  (condicoesAtivas condicoes).map (fun cond =>
    { y0 := cond.y0
      exata := (tempos tf h).map (fun t => solucaoExata t r K cond.y0)
      euler := (Utils.euler r K cond.y0 tf h).map Point.y
      eulerApr := (Utils.eulerAprimorado r K cond.y0 tf h).map Point.y
      rk4 := (Utils.rungeKutta4 r K cond.y0 tf h).map Point.y })

/-- The per-condition list of absolute Euler errors
`|sol.euler[i] - sol.exata[i]|`, iterated over the indices of `sol.exata`
exactly as the source `sol.exata.forEach((ex, i) => ...)` does; the two lists
have equal length, so `zipWith` visits the same index pairs. -/
def errosEuler (sol : Solucao) : List ℝ :=
  List.zipWith (fun ex ny => |ny - ex|) sol.exata sol.euler

/-- The per-condition list of absolute improved-Euler errors. -/
def errosEulerApr (sol : Solucao) : List ℝ :=
  List.zipWith (fun ex ny => |ny - ex|) sol.exata sol.eulerApr

/-- The per-condition list of absolute RK4 errors. -/
def errosRK4 (sol : Solucao) : List ℝ :=
  List.zipWith (fun ex ny => |ny - ex|) sol.exata sol.rk4

/-- Embedding of the accumulation
`let erroMaxEuler = 0; todasSolucoes.forEach(sol => sol.exata.forEach((ex, i) =>
erroMaxEuler = Math.max(erroMaxEuler, Math.abs(sol.euler[i] - ex))))`. -/
def erroMaxEuler (r K tf h : ℝ) (condicoes : List Condicao) : ℝ :=
  (todasSolucoes r K tf h condicoes).foldl
    (fun acc sol => (errosEuler sol).foldl max acc) 0

/-- Embedding of the analogous accumulation for `erroMaxEulerApr`. -/
def erroMaxEulerApr (r K tf h : ℝ) (condicoes : List Condicao) : ℝ :=
  (todasSolucoes r K tf h condicoes).foldl
    (fun acc sol => (errosEulerApr sol).foldl max acc) 0

/-- Embedding of the analogous accumulation for `erroMaxRK4`. -/
def erroMaxRK4 (r K tf h : ℝ) (condicoes : List Condicao) : ℝ :=
  (todasSolucoes r K tf h condicoes).foldl
    (fun acc sol => (errosRK4 sol).foldl max acc) 0

/-- Embedding of the displayed Euler-to-RK4 error ratio:
`dados.erroMaxRK4 > 0 ? (dados.erroMaxEuler / dados.erroMaxRK4).toFixed(0) : '∞'`.
`none` models the infinity marker; `some q` models the quotient that the
presentation then formats with `toFixed(0)`. -/
def razaoErroEuler (r K tf h : ℝ) (condicoes : List Condicao) : Option ℝ :=
  if 0 < erroMaxRK4 r K tf h condicoes then
    some (erroMaxEuler r K tf h condicoes / erroMaxRK4 r K tf h condicoes)
  else none

/-- Embedding of the displayed improved-Euler-to-RK4 error ratio. -/
def razaoErroEulerApr (r K tf h : ℝ) (condicoes : List Condicao) : Option ℝ :=
  if 0 < erroMaxRK4 r K tf h condicoes then
    some (erroMaxEulerApr r K tf h condicoes / erroMaxRK4 r K tf h condicoes)
  else none

end Corrigido

/-- The initial accumulator never exceeds a left fold of `max`. -/
theorem le_foldl_max (l : List ℝ) : ∀ a : ℝ, a ≤ l.foldl max a := by
  induction l with
  | nil => intro a; exact le_refl a
  | cons x xs ih => intro a; exact le_trans (le_max_left a x) (ih (max a x))

/-- Every member of the list is bounded by the left fold of `max`. -/
theorem mem_le_foldl_max {x : ℝ} : ∀ {l : List ℝ}, x ∈ l → ∀ a : ℝ, x ≤ l.foldl max a := by
  intro l
  induction l with
  | nil => intro hx; cases hx
  | cons z zs ih =>
    intro hx a
    rcases List.mem_cons.mp hx with hz | hz
    · subst hz
      exact le_trans (le_max_right a x) (le_foldl_max zs (max a x))
    · exact ih hz (max a z)

/-- A left fold of `max` is either the initial accumulator or a member. -/
theorem foldl_max_eq_or_mem (l : List ℝ) :
    ∀ a : ℝ, l.foldl max a = a ∨ l.foldl max a ∈ l := by
  induction l with
  | nil => intro a; exact Or.inl rfl
  | cons z zs ih =>
    intro a
    rcases ih (max a z) with hcase | hcase
    · rcases max_choice a z with hm | hm
      · exact Or.inl (by rw [List.foldl_cons, hcase, hm])
      · refine Or.inr (List.mem_cons.mpr (Or.inl ?_))
        rw [List.foldl_cons, hcase, hm]
    · exact Or.inr (List.mem_cons.mpr (Or.inr hcase))

/-- The nested accumulation over solutions is a single fold of `max` over the
flattened error list. -/
theorem foldl_foldl_max_eq_bind {α : Type} (g : α → List ℝ) :
    ∀ (sols : List α) (a : ℝ),
      sols.foldl (fun acc sol => (g sol).foldl max acc) a
        = (sols.flatMap g).foldl max a := by
  intro sols
  induction sols with
  | nil => intro a; rfl
  | cons s ss ih =>
    intro a
    rw [List.foldl_cons, List.flatMap_cons, List.foldl_append, ih]

/-- For positive `tf` and `h` the natural loop bound agrees with `⌊tf / h⌋`. -/
theorem nSteps_cast (tf h : ℝ) (hh : 0 < h) (htf : 0 < tf) :
    (nSteps tf h : ℤ) = ⌊tf / h⌋ :=
  Int.toNat_of_nonneg (Int.floor_nonneg.mpr (le_of_lt (div_pos htf hh)))

/-- Length of the inline Euler output. -/
theorem inline_euler_length (r K y0 tf h : ℝ) :
    (Inline.euler r K y0 tf h).length = nSteps tf h + 1 := by
  rw [inline_euler_eq]; simp

/-- Length of the inline improved-Euler output. -/
theorem inline_eulerAprimorado_length (r K y0 tf h : ℝ) :
    (Inline.eulerAprimorado r K y0 tf h).length = nSteps tf h + 1 := by
  rw [inline_eulerAprimorado_eq]; simp

/-- Length of the inline RK4 output. -/
theorem inline_rungeKutta4_length (r K y0 tf h : ℝ) :
    (Inline.rungeKutta4 r K y0 tf h).length = nSteps tf h + 1 := by
  rw [inline_rungeKutta4_eq]; simp

/-- Length of the module Euler output. -/
theorem utils_euler_length (r K y0 tf h : ℝ) :
    (Utils.euler r K y0 tf h).length = nSteps tf h + 1 := by
  rw [utils_euler_eq]; simp

/-- Length of the module improved-Euler output. -/
theorem utils_eulerAprimorado_length (r K y0 tf h : ℝ) :
    (Utils.eulerAprimorado r K y0 tf h).length = nSteps tf h + 1 := by
  rw [utils_eulerAprimorado_eq]; simp

/-- Length of the module RK4 output. -/
theorem utils_rungeKutta4_length (r K y0 tf h : ℝ) :
    (Utils.rungeKutta4 r K y0 tf h).length = nSteps tf h + 1 := by
  rw [utils_rungeKutta4_eq]; simp

/-- Claim C1: for every r, K, y0, tf and h > 0 with tf > 0 the RK4 integrator
produces ⌊tf / h⌋ steps after the initial point, each consecutive pair of
stored points satisfies the classical fourth-order recurrence
`k1 = f(t, y), k2 = f(t + h/2, y + (h/2) k1), k3 = f(t + h/2, y + (h/2) k2),
k4 = f(t + h, y + h k3), y' = y + (h/6)(k1 + 2 k2 + 2 k3 + k4)` with
`f = modeloLogistico`, and the module version computes the same y sequence. -/
theorem c1_rk4_recurrence (r K y0 tf h : ℝ) (hh : 0 < h) (htf : 0 < tf) :
    (((Inline.rungeKutta4 r K y0 tf h).length : ℤ) = ⌊tf / h⌋ + 1)
    ∧ (∀ (i : ℕ) (p q : Point),
        (Inline.rungeKutta4 r K y0 tf h)[i]? = some p →
        (Inline.rungeKutta4 r K y0 tf h)[i + 1]? = some q →
        q.y =
          (let k1 := modeloLogistico p.t p.y r K
           let k2 := modeloLogistico (p.t + h / 2) (p.y + (h / 2) * k1) r K
           let k3 := modeloLogistico (p.t + h / 2) (p.y + (h / 2) * k2) r K
           let k4 := modeloLogistico (p.t + h) (p.y + h * k3) r K
           p.y + (h / 6) * (k1 + 2 * k2 + 2 * k3 + k4)))
    ∧ (Utils.rungeKutta4 r K y0 tf h).map Point.y
        = (Inline.rungeKutta4 r K y0 tf h).map Point.y := by
  refine ⟨?_, ?_, ?_⟩
  · rw [inline_rungeKutta4_length]
    push_cast
    rw [nSteps_cast tf h hh htf]
  · intro i p q hp hq
    rw [inline_rungeKutta4_eq] at hp hq
    have hi1 : i + 1 < nSteps tf h + 1 := by
      by_contra hcon
      push_neg at hcon
      rw [List.getElem?_eq_none (by simpa using hcon)] at hq
      exact Option.noConfusion hq
    have hi0 : i < nSteps tf h + 1 := Nat.lt_of_succ_lt hi1
    rw [getElem?_range_map _ hi0] at hp
    rw [getElem?_range_map _ hi1] at hq
    cases hp
    cases hq
    rfl
  · rw [utils_rungeKutta4_eq, inline_rungeKutta4_eq, List.map_map, List.map_map]
    rfl

/-- Witness for C1, projected to the length conjunct at concrete parameters. -/
theorem c1_rk4_recurrence_witness :
    0 < (1 : ℝ) ∧ ((Inline.rungeKutta4 1 1 1 1 1).length : ℤ) = ⌊(1 : ℝ) / 1⌋ + 1 :=
  ⟨one_pos, (c1_rk4_recurrence 1 1 1 1 1 one_pos one_pos).1⟩

/-- Claim C2: the improved-Euler integrator advances each of its ⌊tf / h⌋
steps by the two-stage predictor-corrector recurrence
`k1 = f(t, y), k2 = f(t + h, y + h k1), y' = y + (h/2)(k1 + k2)` with
`f = modeloLogistico`, and the module version computes the same y sequence. -/
theorem c2_heun_recurrence (r K y0 tf h : ℝ) (hh : 0 < h) (htf : 0 < tf) :
    (((Inline.eulerAprimorado r K y0 tf h).length : ℤ) = ⌊tf / h⌋ + 1)
    ∧ (∀ (i : ℕ) (p q : Point),
        (Inline.eulerAprimorado r K y0 tf h)[i]? = some p →
        (Inline.eulerAprimorado r K y0 tf h)[i + 1]? = some q →
        q.y =
          (let k1 := modeloLogistico p.t p.y r K
           let k2 := modeloLogistico (p.t + h) (p.y + h * k1) r K
           p.y + (h / 2) * (k1 + k2)))
    ∧ (Utils.eulerAprimorado r K y0 tf h).map Point.y
        = (Inline.eulerAprimorado r K y0 tf h).map Point.y := by
  refine ⟨?_, ?_, ?_⟩
  · rw [inline_eulerAprimorado_length]
    push_cast
    rw [nSteps_cast tf h hh htf]
  · intro i p q hp hq
    rw [inline_eulerAprimorado_eq] at hp hq
    have hi1 : i + 1 < nSteps tf h + 1 := by
      by_contra hcon
      push_neg at hcon
      rw [List.getElem?_eq_none (by simpa using hcon)] at hq
      exact Option.noConfusion hq
    have hi0 : i < nSteps tf h + 1 := Nat.lt_of_succ_lt hi1
    rw [getElem?_range_map _ hi0] at hp
    rw [getElem?_range_map _ hi1] at hq
    cases hp
    cases hq
    rfl
  · rw [utils_eulerAprimorado_eq, inline_eulerAprimorado_eq, List.map_map, List.map_map]
    rfl

/-- Witness for C2, projected to the length conjunct at concrete parameters. -/
theorem c2_heun_recurrence_witness :
    0 < (1 : ℝ) ∧ ((Inline.eulerAprimorado 1 1 1 1 1).length : ℤ) = ⌊(1 : ℝ) / 1⌋ + 1 :=
  ⟨one_pos, (c2_heun_recurrence 1 1 1 1 1 one_pos one_pos).1⟩

/-- Claim C4: for h > 0 and tf > 0 every one of the six integrator functions
returns exactly ⌊tf / h⌋ + 1 trajectory points and its first element is
`{ t: 0, y: y0 }`. -/
theorem c4_length_first_point (r K y0 tf h : ℝ) (hh : 0 < h) (htf : 0 < tf) :
    (((Inline.euler r K y0 tf h).length : ℤ) = ⌊tf / h⌋ + 1
      ∧ (Inline.euler r K y0 tf h).head? = some ⟨0, y0⟩)
    ∧ (((Inline.eulerAprimorado r K y0 tf h).length : ℤ) = ⌊tf / h⌋ + 1
      ∧ (Inline.eulerAprimorado r K y0 tf h).head? = some ⟨0, y0⟩)
    ∧ (((Inline.rungeKutta4 r K y0 tf h).length : ℤ) = ⌊tf / h⌋ + 1
      ∧ (Inline.rungeKutta4 r K y0 tf h).head? = some ⟨0, y0⟩)
    ∧ (((Utils.euler r K y0 tf h).length : ℤ) = ⌊tf / h⌋ + 1
      ∧ (Utils.euler r K y0 tf h).head? = some ⟨0, y0⟩)
    ∧ (((Utils.eulerAprimorado r K y0 tf h).length : ℤ) = ⌊tf / h⌋ + 1
      ∧ (Utils.eulerAprimorado r K y0 tf h).head? = some ⟨0, y0⟩)
    ∧ (((Utils.rungeKutta4 r K y0 tf h).length : ℤ) = ⌊tf / h⌋ + 1
      ∧ (Utils.rungeKutta4 r K y0 tf h).head? = some ⟨0, y0⟩) := by
  have hn := nSteps_cast tf h hh htf
  refine ⟨⟨?_, rfl⟩, ⟨?_, rfl⟩, ⟨?_, rfl⟩, ⟨?_, rfl⟩, ⟨?_, rfl⟩, ⟨?_, rfl⟩⟩
  · rw [inline_euler_length]; push_cast; rw [hn]
  · rw [inline_eulerAprimorado_length]; push_cast; rw [hn]
  · rw [inline_rungeKutta4_length]; push_cast; rw [hn]
  · rw [utils_euler_length]; push_cast; rw [hn]
  · rw [utils_eulerAprimorado_length]; push_cast; rw [hn]
  · rw [utils_rungeKutta4_length]; push_cast; rw [hn]

/-- Witness for C4, projected to the inline Euler conjunct at concrete
parameters. -/
theorem c4_length_first_point_witness :
    0 < (1 : ℝ) ∧ ((Inline.euler 1 1 1 1 1).length : ℤ) = ⌊(1 : ℝ) / 1⌋ + 1
      ∧ (Inline.euler 1 1 1 1 1).head? = some ⟨0, 1⟩ :=
  ⟨one_pos, (c4_length_first_point 1 1 1 1 1 one_pos one_pos).1⟩

/-- Claim C10: for h > 0 and tf > 0 each module integrator agrees with its
inline counterpart in length and in every y value, and equals the inline
output with the stored time rounded to six decimal digits (the first point
stores t = 0, which the rounding leaves unchanged). -/
theorem c10_module_inline_refinement (r K y0 tf h : ℝ) (hh : 0 < h) (htf : 0 < tf) :
    ((Utils.euler r K y0 tf h).length = (Inline.euler r K y0 tf h).length
      ∧ (Utils.euler r K y0 tf h).map Point.y = (Inline.euler r K y0 tf h).map Point.y
      ∧ Utils.euler r K y0 tf h
          = (Inline.euler r K y0 tf h).map (fun p => ⟨round6 p.t, p.y⟩))
    ∧ ((Utils.eulerAprimorado r K y0 tf h).length = (Inline.eulerAprimorado r K y0 tf h).length
      ∧ (Utils.eulerAprimorado r K y0 tf h).map Point.y
          = (Inline.eulerAprimorado r K y0 tf h).map Point.y
      ∧ Utils.eulerAprimorado r K y0 tf h
          = (Inline.eulerAprimorado r K y0 tf h).map (fun p => ⟨round6 p.t, p.y⟩))
    ∧ ((Utils.rungeKutta4 r K y0 tf h).length = (Inline.rungeKutta4 r K y0 tf h).length
      ∧ (Utils.rungeKutta4 r K y0 tf h).map Point.y
          = (Inline.rungeKutta4 r K y0 tf h).map Point.y
      ∧ Utils.rungeKutta4 r K y0 tf h
          = (Inline.rungeKutta4 r K y0 tf h).map (fun p => ⟨round6 p.t, p.y⟩)) := by
  refine ⟨⟨?_, ?_, ?_⟩, ⟨?_, ?_, ?_⟩, ⟨?_, ?_, ?_⟩⟩
  · rw [utils_euler_length, inline_euler_length]
  · rw [utils_euler_eq, inline_euler_eq, List.map_map, List.map_map]; rfl
  · rw [utils_euler_eq, inline_euler_eq, List.map_map]; rfl
  · rw [utils_eulerAprimorado_length, inline_eulerAprimorado_length]
  · rw [utils_eulerAprimorado_eq, inline_eulerAprimorado_eq, List.map_map, List.map_map]; rfl
  · rw [utils_eulerAprimorado_eq, inline_eulerAprimorado_eq, List.map_map]; rfl
  · rw [utils_rungeKutta4_length, inline_rungeKutta4_length]
  · rw [utils_rungeKutta4_eq, inline_rungeKutta4_eq, List.map_map, List.map_map]; rfl
  · rw [utils_rungeKutta4_eq, inline_rungeKutta4_eq, List.map_map]; rfl

/-- Witness for C10, projected to the Euler length conjunct at concrete
parameters. -/
theorem c10_module_inline_refinement_witness :
    0 < (1 : ℝ) ∧ (Utils.euler 1 1 1 1 1).length = (Inline.euler 1 1 1 1 1).length :=
  ⟨one_pos, (c10_module_inline_refinement 1 1 1 1 1 one_pos one_pos).1.1⟩

/-- Claim C6 (amended): the stored time coordinates of the inline integrators
form exactly the grid `i * h` used by `ModeloLogisticoMultiplo`, and those of
the module integrators form exactly the six-decimal rounded grid
`round6 (i * h)` used by `ModeloLogisticoCorrigido`, so each component pairs
samples index-for-index with its own grid.  The time is accumulated by
`t = t + h` in the source, which in exact arithmetic coincides with `i * h`
before the rounding. -/
theorem c6_time_grid_amended (r K y0 tf h : ℝ) :
    ((Inline.euler r K y0 tf h).map Point.t = Multiplo.tempos tf h)
    ∧ ((Inline.eulerAprimorado r K y0 tf h).map Point.t = Multiplo.tempos tf h)
    ∧ ((Inline.rungeKutta4 r K y0 tf h).map Point.t = Multiplo.tempos tf h)
    ∧ ((Utils.euler r K y0 tf h).map Point.t = Corrigido.tempos tf h)
    ∧ ((Utils.eulerAprimorado r K y0 tf h).map Point.t = Corrigido.tempos tf h)
    ∧ ((Utils.rungeKutta4 r K y0 tf h).map Point.t = Corrigido.tempos tf h) := by
  refine ⟨?_, ?_, ?_, ?_, ?_, ?_⟩
  · rw [inline_euler_eq, List.map_map]; rfl
  · rw [inline_eulerAprimorado_eq, List.map_map]; rfl
  · rw [inline_rungeKutta4_eq, List.map_map]; rfl
  · rw [utils_euler_eq, List.map_map]; rfl
  · rw [utils_eulerAprimorado_eq, List.map_map]; rfl
  · rw [utils_rungeKutta4_eq, List.map_map]; rfl

/-- Counterexample to claim C6 as stated: with h = 10⁻⁷ the module Euler
integrator stores t = 0 at index 1 (six-decimal rounding of the accumulated
time), which differs from i * h = 10⁻⁷; so the stored time does not equal
`i * h` for every h > 0. -/
theorem c6_counterexample :
    (Utils.euler 1 1 1 1 (1 / 10000000))[1]? = some ⟨0, 1⟩
    ∧ (0 : ℝ) ≠ ((1 : ℕ) : ℝ) * (1 / 10000000) := by
  have hn : nSteps 1 (1 / 10000000) = 10000000 := by
    have h1 : (1 : ℝ) / (1 / 10000000) = ((10000000 : ℤ) : ℝ) := by norm_num
    rw [nSteps, h1, Int.floor_intCast]
    rfl
  constructor
  · rw [utils_euler_eq, getElem?_range_map _ (by rw [hn]; norm_num)]
    have hr : round6 (((1 : ℕ) : ℝ) * (1 / 10000000)) = 0 := by
      have hx : (((1 : ℕ) : ℝ) * (1 / 10000000)) * 1000000 = 1 / 10 := by norm_num
      have hround : round ((1 : ℝ) / 10) = 0 := by
        rw [round_eq]
        norm_num
      rw [round6, hx, hround]
      norm_num
    have hy : specY (eulerStep 1 1 (1 / 10000000)) 1 (1 / 10000000) 1 = 1 := by
      show eulerStep 1 1 (1 / 10000000) (((0 : ℕ) : ℝ) * (1 / 10000000)) 1 = 1
      simp [eulerStep, modeloLogistico]
    rw [hr, hy]
  · norm_num

/-- The right-hand side vanishes at the carrying capacity. -/
theorem modeloLogistico_fixed {K : ℝ} (hK : K ≠ 0) (t r : ℝ) :
    modeloLogistico t K r K = 0 := by
  simp [modeloLogistico, div_self hK]

/-- A one-step method whose update fixes K produces the constant sequence K. -/
theorem specY_const (step : ℝ → ℝ → ℝ) (K h : ℝ) (hstep : ∀ t, step t K = K) :
    ∀ i, specY step K h i = K := by
  intro i
  induction i with
  | zero => rfl
  | succ i ih =>
    show step ((i : ℝ) * h) (specY step K h i) = K
    rw [ih, hstep]

/-- The Euler update fixes the carrying capacity. -/
theorem eulerStep_fixed {K : ℝ} (hK : K ≠ 0) (r h t : ℝ) :
    eulerStep r K h t K = K := by
  simp [eulerStep, modeloLogistico_fixed hK]

/-- The Heun update fixes the carrying capacity. -/
theorem heunStep_fixed {K : ℝ} (hK : K ≠ 0) (r h t : ℝ) :
    heunStep r K h t K = K := by
  simp [heunStep, modeloLogistico_fixed hK]

/-- The RK4 update fixes the carrying capacity. -/
theorem rk4Step_fixed {K : ℝ} (hK : K ≠ 0) (r h t : ℝ) :
    rk4Step r K h t K = K := by
  simp [rk4Step, modeloLogistico_fixed hK]

/-- Claim C7: for r, K, tf, h > 0 and y0 = K, every trajectory point of all
six integrator functions has y = K, and the analytic solution is the
constant K. -/
theorem c7_fixed_point (r K tf h : ℝ) (hr : 0 < r) (hK : 0 < K)
    (htf : 0 < tf) (hh : 0 < h) :
    (∀ p ∈ Inline.euler r K K tf h, p.y = K)
    ∧ (∀ p ∈ Inline.eulerAprimorado r K K tf h, p.y = K)
    ∧ (∀ p ∈ Inline.rungeKutta4 r K K tf h, p.y = K)
    ∧ (∀ p ∈ Utils.euler r K K tf h, p.y = K)
    ∧ (∀ p ∈ Utils.eulerAprimorado r K K tf h, p.y = K)
    ∧ (∀ p ∈ Utils.rungeKutta4 r K K tf h, p.y = K)
    ∧ (∀ t, solucaoExata t r K K = K) := by
  have hK0 : K ≠ 0 := ne_of_gt hK
  refine ⟨?_, ?_, ?_, ?_, ?_, ?_, ?_⟩
  · rw [inline_euler_eq]
    intro p hp
    obtain ⟨i, _, rfl⟩ := List.mem_map.mp hp
    exact specY_const _ K h (eulerStep_fixed hK0 r h) i
  · rw [inline_eulerAprimorado_eq]
    intro p hp
    obtain ⟨i, _, rfl⟩ := List.mem_map.mp hp
    exact specY_const _ K h (heunStep_fixed hK0 r h) i
  · rw [inline_rungeKutta4_eq]
    intro p hp
    obtain ⟨i, _, rfl⟩ := List.mem_map.mp hp
    exact specY_const _ K h (rk4Step_fixed hK0 r h) i
  · rw [utils_euler_eq]
    intro p hp
    obtain ⟨i, _, rfl⟩ := List.mem_map.mp hp
    exact specY_const _ K h (eulerStep_fixed hK0 r h) i
  · rw [utils_eulerAprimorado_eq]
    intro p hp
    obtain ⟨i, _, rfl⟩ := List.mem_map.mp hp
    exact specY_const _ K h (heunStep_fixed hK0 r h) i
  · rw [utils_rungeKutta4_eq]
    intro p hp
    obtain ⟨i, _, rfl⟩ := List.mem_map.mp hp
    exact specY_const _ K h (rk4Step_fixed hK0 r h) i
  · intro t
    rw [solucaoExata, sub_self, zero_mul, add_zero, mul_div_assoc, div_self hK0, mul_one]

/-- Witness for C7: the analytic conjunct applied at t = 0 with concrete
positive parameters and y0 = K = 1. -/
theorem c7_fixed_point_witness : solucaoExata 0 1 1 1 = 1 :=
  (c7_fixed_point 1 1 1 1 one_pos one_pos one_pos one_pos).2.2.2.2.2.2 0

/-- Claim C3 (amended): `solucaoExata` returns the closed-form logistic
formula, and at t = 0 it reduces to y0 for every K ≠ 0 and y0 ≠ 0 (covering
y0 = K and every y0 > 0). -/
theorem c3_exact_at_zero_amended (t r K y0 : ℝ) :
    (solucaoExata t r K y0 = (K * y0) / (y0 + (K - y0) * Real.exp (-r * t)))
    ∧ (K ≠ 0 → y0 ≠ 0 → solucaoExata 0 r K y0 = y0) := by
  refine ⟨rfl, fun hK _ => ?_⟩
  have hden : y0 + (K - y0) * Real.exp (-r * 0) = K := by
    rw [mul_zero, Real.exp_zero, mul_one]
    ring
  rw [solucaoExata, hden, mul_comm, mul_div_assoc, div_self hK, mul_one]

/-- Witness for C3 (amended) at r = K = y0 = 1. -/
theorem c3_exact_at_zero_amended_witness :
    (1 : ℝ) ≠ 0 ∧ solucaoExata 0 1 1 1 = 1 :=
  ⟨one_ne_zero, (c3_exact_at_zero_amended 0 1 1 1).2 one_ne_zero one_ne_zero⟩

/-- Counterexample to claim C3 as stated: at K = 0 and y0 = 1 ≠ 0 the
denominator vanishes at t = 0 and the function does not return y0. -/
theorem c3_counterexample : solucaoExata 0 1 0 1 ≠ 1 := by
  rw [solucaoExata]
  norm_num

/-- Whenever `tf / h < 1` the loop bound `Math.floor(tf / h)` is at most 0,
so the loop body never runs. -/
theorem nSteps_eq_zero {tf h : ℝ} (hlt : tf / h < 1) : nSteps tf h = 0 := by
  have hfl : ⌊tf / h⌋ < 1 := Int.floor_lt.mpr (by exact_mod_cast hlt)
  rw [nSteps, Int.toNat_eq_zero]
  omega

/-- Claim C8 (amended): the core performs no input validation and never
rejects; for every `h ≠ 0` with `tf / h < 1` — in particular for the
malformed inputs h < 0 < tf or tf ≤ 0 < h — every integrator terminates
normally returning the single (finite) point `{ t: 0, y: y0 }`.  The
remaining malformed input h = 0 with tf > 0 makes the source loop bound
`Math.floor(tf / 0) = Infinity`, so there the source loop does not terminate
at all; that divergence is excluded by the `h ≠ 0` hypothesis because the
embedding `nSteps` is only faithful away from h = 0. -/
theorem c8_no_rejection_amended (r K y0 tf h : ℝ) (hne : h ≠ 0) (hlt : tf / h < 1) :
    Inline.euler r K y0 tf h = [⟨0, y0⟩]
    ∧ Inline.eulerAprimorado r K y0 tf h = [⟨0, y0⟩]
    ∧ Inline.rungeKutta4 r K y0 tf h = [⟨0, y0⟩]
    ∧ Utils.euler r K y0 tf h = [⟨0, y0⟩]
    ∧ Utils.eulerAprimorado r K y0 tf h = [⟨0, y0⟩]
    ∧ Utils.rungeKutta4 r K y0 tf h = [⟨0, y0⟩] := by
  have hn := nSteps_eq_zero hlt
  refine ⟨?_, ?_, ?_, ?_, ?_, ?_⟩ <;>
    simp [Inline.euler, Inline.eulerAprimorado, Inline.rungeKutta4,
      Utils.euler, Utils.eulerAprimorado, Utils.rungeKutta4, hn,
      Inline.eulerAux, Inline.eulerAprimoradoAux, Inline.rungeKutta4Aux,
      Utils.eulerAux, Utils.eulerAprimoradoAux, Utils.rungeKutta4Aux]

/-- Witness for C8 (amended) at the malformed input h = -1. -/
theorem c8_no_rejection_amended_witness :
    (-1 : ℝ) ≠ 0 ∧ (1 : ℝ) / (-1) < 1 ∧ Utils.euler 1 1 1 1 (-1) = [⟨0, 1⟩] :=
  ⟨by norm_num, by norm_num,
    (c8_no_rejection_amended 1 1 1 1 (-1) (by norm_num) (by norm_num)).2.2.2.1⟩

/-- Counterexample to claim C8 as stated: at the malformed input h = -1 ≤ 0
(with finite r, K, y0 and tf = 1 > 0) the inline Euler integrator terminates
normally and returns an entirely finite result, rather than rejecting or
producing a non-finite value. -/
theorem c8_counterexample : Inline.euler 1 1 1 1 (-1) = [⟨0, 1⟩] := by
  have hn : nSteps 1 (-1) = 0 := nSteps_eq_zero (by norm_num)
  simp [Inline.euler, hn, Inline.eulerAux]

/-- The nested error accumulation equals a single fold over the flattened
error list. -/
theorem erroMaxEuler_eq_flat (r K tf h : ℝ) (condicoes : List Condicao) :
    Corrigido.erroMaxEuler r K tf h condicoes
      = ((Corrigido.todasSolucoes r K tf h condicoes).flatMap
          Corrigido.errosEuler).foldl max 0 :=
  foldl_foldl_max_eq_bind Corrigido.errosEuler (Corrigido.todasSolucoes r K tf h condicoes) 0

/-- The nested improved-Euler error accumulation, flattened. -/
theorem erroMaxEulerApr_eq_flat (r K tf h : ℝ) (condicoes : List Condicao) :
    Corrigido.erroMaxEulerApr r K tf h condicoes
      = ((Corrigido.todasSolucoes r K tf h condicoes).flatMap
          Corrigido.errosEulerApr).foldl max 0 :=
  foldl_foldl_max_eq_bind Corrigido.errosEulerApr (Corrigido.todasSolucoes r K tf h condicoes) 0

/-- The nested RK4 error accumulation, flattened. -/
theorem erroMaxRK4_eq_flat (r K tf h : ℝ) (condicoes : List Condicao) :
    Corrigido.erroMaxRK4 r K tf h condicoes
      = ((Corrigido.todasSolucoes r K tf h condicoes).flatMap
          Corrigido.errosRK4).foldl max 0 :=
  foldl_foldl_max_eq_bind Corrigido.errosRK4 (Corrigido.todasSolucoes r K tf h condicoes) 0

/-- Claim C5: each per-method Error Summary scalar is the maximum of
`|numeric_y - analytic_y|` over every active initial condition and every time
index in `[0, n]`: all four per-condition sequences have length `n + 1`, the
scalar bounds every pointwise absolute error, and it is either attained at
one of them or equal to 0; with no active initial condition the solution
collection is empty and all three scalars are 0 (vacuous maximum). -/
theorem c5_error_summary (r K tf h : ℝ) (condicoes : List Condicao) :
    (∀ sol ∈ Corrigido.todasSolucoes r K tf h condicoes,
        sol.exata.length = nSteps tf h + 1 ∧ sol.euler.length = nSteps tf h + 1
          ∧ sol.eulerApr.length = nSteps tf h + 1 ∧ sol.rk4.length = nSteps tf h + 1)
    ∧ (∀ sol ∈ Corrigido.todasSolucoes r K tf h condicoes,
        (∀ e ∈ Corrigido.errosEuler sol, e ≤ Corrigido.erroMaxEuler r K tf h condicoes)
        ∧ (∀ e ∈ Corrigido.errosEulerApr sol, e ≤ Corrigido.erroMaxEulerApr r K tf h condicoes)
        ∧ (∀ e ∈ Corrigido.errosRK4 sol, e ≤ Corrigido.erroMaxRK4 r K tf h condicoes))
    ∧ (Corrigido.erroMaxEuler r K tf h condicoes = 0
        ∨ ∃ sol ∈ Corrigido.todasSolucoes r K tf h condicoes,
            Corrigido.erroMaxEuler r K tf h condicoes ∈ Corrigido.errosEuler sol)
    ∧ (Corrigido.erroMaxEulerApr r K tf h condicoes = 0
        ∨ ∃ sol ∈ Corrigido.todasSolucoes r K tf h condicoes,
            Corrigido.erroMaxEulerApr r K tf h condicoes ∈ Corrigido.errosEulerApr sol)
    ∧ (Corrigido.erroMaxRK4 r K tf h condicoes = 0
        ∨ ∃ sol ∈ Corrigido.todasSolucoes r K tf h condicoes,
            Corrigido.erroMaxRK4 r K tf h condicoes ∈ Corrigido.errosRK4 sol)
    ∧ (Corrigido.condicoesAtivas condicoes = [] →
        Corrigido.todasSolucoes r K tf h condicoes = []
        ∧ Corrigido.erroMaxEuler r K tf h condicoes = 0
        ∧ Corrigido.erroMaxEulerApr r K tf h condicoes = 0
        ∧ Corrigido.erroMaxRK4 r K tf h condicoes = 0) := by
  refine ⟨?_, ?_, ?_, ?_, ?_, ?_⟩
  · intro sol hsol
    obtain ⟨cond, _, rfl⟩ := List.mem_map.mp hsol
    refine ⟨?_, ?_, ?_, ?_⟩
    · simp [Corrigido.tempos]
    · simp [utils_euler_length]
    · simp [utils_eulerAprimorado_length]
    · simp [utils_rungeKutta4_length]
  · intro sol hsol
    refine ⟨fun e he => ?_, fun e he => ?_, fun e he => ?_⟩
    · rw [erroMaxEuler_eq_flat]
      exact mem_le_foldl_max (List.mem_flatMap.mpr ⟨sol, hsol, he⟩) 0
    · rw [erroMaxEulerApr_eq_flat]
      exact mem_le_foldl_max (List.mem_flatMap.mpr ⟨sol, hsol, he⟩) 0
    · rw [erroMaxRK4_eq_flat]
      exact mem_le_foldl_max (List.mem_flatMap.mpr ⟨sol, hsol, he⟩) 0
  · rw [erroMaxEuler_eq_flat]
    rcases foldl_max_eq_or_mem
        ((Corrigido.todasSolucoes r K tf h condicoes).flatMap Corrigido.errosEuler) 0 with hc | hc
    · exact Or.inl hc
    · obtain ⟨sol, hsol, hmem⟩ := List.mem_flatMap.mp hc
      exact Or.inr ⟨sol, hsol, hmem⟩
  · rw [erroMaxEulerApr_eq_flat]
    rcases foldl_max_eq_or_mem
        ((Corrigido.todasSolucoes r K tf h condicoes).flatMap Corrigido.errosEulerApr) 0 with hc | hc
    · exact Or.inl hc
    · obtain ⟨sol, hsol, hmem⟩ := List.mem_flatMap.mp hc
      exact Or.inr ⟨sol, hsol, hmem⟩
  · rw [erroMaxRK4_eq_flat]
    rcases foldl_max_eq_or_mem
        ((Corrigido.todasSolucoes r K tf h condicoes).flatMap Corrigido.errosRK4) 0 with hc | hc
    · exact Or.inl hc
    · obtain ⟨sol, hsol, hmem⟩ := List.mem_flatMap.mp hc
      exact Or.inr ⟨sol, hsol, hmem⟩
  · intro hempty
    have htodas : Corrigido.todasSolucoes r K tf h condicoes = [] := by
      rw [Corrigido.todasSolucoes, hempty]
      rfl
    refine ⟨htodas, ?_, ?_, ?_⟩ <;>
      simp [Corrigido.erroMaxEuler, Corrigido.erroMaxEulerApr, Corrigido.erroMaxRK4, htodas]

/-- Witness for C5: the empty-collection conjunct at concrete parameters. -/
theorem c5_error_summary_witness :
    Corrigido.todasSolucoes 1 1 1 1 [] = []
    ∧ Corrigido.erroMaxEuler 1 1 1 1 [] = 0
    ∧ Corrigido.erroMaxEulerApr 1 1 1 1 [] = 0
    ∧ Corrigido.erroMaxRK4 1 1 1 1 [] = 0 :=
  (c5_error_summary 1 1 1 1 []).2.2.2.2.2 rfl

/-- Claim C9: the RK4 maximum error is never negative; when it is exactly
zero both displayed error ratios are the explicit infinity marker and no
division is performed, and when it is strictly positive both ratios are the
real quotients of the corresponding maxima. -/
theorem c9_error_ratio (r K tf h : ℝ) (condicoes : List Condicao) :
    0 ≤ Corrigido.erroMaxRK4 r K tf h condicoes
    ∧ (Corrigido.erroMaxRK4 r K tf h condicoes = 0 →
        Corrigido.razaoErroEuler r K tf h condicoes = none
        ∧ Corrigido.razaoErroEulerApr r K tf h condicoes = none)
    ∧ (0 < Corrigido.erroMaxRK4 r K tf h condicoes →
        Corrigido.razaoErroEuler r K tf h condicoes
          = some (Corrigido.erroMaxEuler r K tf h condicoes
              / Corrigido.erroMaxRK4 r K tf h condicoes)
        ∧ Corrigido.razaoErroEulerApr r K tf h condicoes
          = some (Corrigido.erroMaxEulerApr r K tf h condicoes
              / Corrigido.erroMaxRK4 r K tf h condicoes)) := by
  refine ⟨?_, fun h0 => ?_, fun hpos => ?_⟩
  · rw [erroMaxRK4_eq_flat]
    exact le_foldl_max _ 0
  · constructor <;> simp [Corrigido.razaoErroEuler, Corrigido.razaoErroEulerApr, h0]
  · constructor <;> simp [Corrigido.razaoErroEuler, Corrigido.razaoErroEulerApr, hpos]

/-- Witness for C9: with no active initial conditions the RK4 maximum error
is 0 and both ratios are the infinity marker. -/
theorem c9_error_ratio_witness :
    Corrigido.razaoErroEuler 1 1 1 1 [] = none
    ∧ Corrigido.razaoErroEulerApr 1 1 1 1 [] = none :=
  (c9_error_ratio 1 1 1 1 []).2.1 rfl
